import Mathlib

/-!
Verification of the concurrent async local ABCI client (`asyncLocalClient`,
package `concurrent`).  The development contains three embeddings of the Go
source, each used for the class of properties it fits:

1. An action-trace embedding: each public method of the client is rendered
   as the list of coordination-relevant primitive actions it performs, in
   program order (deferred unlocks are placed at their run position, LIFO,
   after the return expression has been evaluated).  This settles claims
   about lock-acquisition order and about which shared state a method
   touches.

2. An operational model of one ordered pipeline (submission / pre-check
   pool / ordered worker), as a small-step transition system.  The
   admission protocol makes a submission's enqueue + counter increment
   atomic with respect to other submissions and with respect to a commit,
   so a submission is one step; a pre-check task completing is one step
   (they may complete in any order); the worker resolving the head item is
   one step (the whole body runs under the write lock, hence atomic with
   respect to every other lock-respecting operation).  This settles the
   FIFO, short-circuit, barrier-accounting and backpressure claims.

3. A fine-grained model of the apply-class (DeliverTx) submission, whose
   sub-steps (enqueue, counter increment, pre-task scheduling) are NOT
   atomic because that path takes no locks; used for the counter
   non-negativity claim.

A model of the shared RWMutex discipline settles the exclusivity claim.
-/

/-! ## Primitive actions (action-trace embedding) -/

/-- Application (ABCI) methods invoked by the client, from the
`ApplicationCC` capability set. -/
inductive AppMethod where
  | echoM | infoM | setOptionM | queryM
  | checkTxM | preCheckTxM | reCheckTxM
  | deliverTxM | preDeliverTxM
  | initChainM | beginBlockM | endBlockM | commitM
deriving DecidableEq

/-- Primitive coordination-relevant actions performed by the client's
methods, in one-to-one correspondence with the statements of the source:
lock/unlock of `checkTxLowLock` (lockLow), `checkTxMidLock` (lockMid),
`commitLock` (lockCommitMtx), the `wgCommit` wait group operations, the
shared `rwLock` in write (lockRW) and read (rlockRW) mode, the per-item
ordering gate (`WorkItem.mtx`), queue sends, pool scheduling, the
application call, response-slot / ReqRes bookkeeping, callbacks, logging
and hashing, and the function return. -/
inductive Act where
  | lockLow | unlockLow
  | lockMid | unlockMid
  | lockCommitMtx | unlockCommitMtx
  | wgAdd | wgDone | wgWait
  | lockRW | unlockRW | rlockRW | runlockRW
  | newGateLocked | gateLock | gateUnlock
  | enqueueCheck | enqueueDeliver
  | scheduleCheckPre | scheduleDeliverPre
  | appCall (m : AppMethod)
  | setResponseSlot | reqResDone
  | perReqCallback | globalCallback
  | logAct | hashAct
  | retReqRes | retResult
deriving DecidableEq

/-- `CheckTxAsync` (source lines 216-242): gate mutex created locked, the
three-lock admission protocol, hash, enqueue on `checkTxQueue`, log,
`wgCommit.Add(1)`, unlocks, schedule the pre-check task, return. -/
def CheckTxAsyncActs : List Act :=
  [.newGateLocked, .lockLow, .lockMid, .lockCommitMtx, .unlockMid,
   .hashAct, .enqueueCheck, .logAct, .wgAdd,
   .unlockCommitMtx, .unlockLow, .scheduleCheckPre, .retReqRes]

/-- `DeliverTxAsync` (source lines 192-214): gate mutex created locked,
hash, enqueue on `deliverTxQueue`, log, `wgCommit.Add(1)`, schedule the
pre-deliver task, return.  No lock of any kind is taken. -/
def DeliverTxAsyncActs : List Act :=
  [.newGateLocked, .hashAct, .enqueueDeliver, .logAct, .wgAdd,
   .scheduleDeliverPre, .retReqRes]

/-- `CommitAsync` (source lines 269-287).  The deferred unlocks run after
the return expression (which invokes the global callback) has been
evaluated, in LIFO order: `rwLock.Unlock` then `commitLock.Unlock`. -/
def CommitAsyncActs : List Act :=
  [.logAct, .lockMid, .lockCommitMtx, .unlockMid, .wgWait, .lockRW,
   .logAct, .appCall .commitM, .logAct, .globalCallback,
   .unlockRW, .unlockCommitMtx, .retReqRes]

/-- `CommitSync` (source lines 377-391).  Note: no `wgCommit.Wait()`
appears in the source of this method, although its comment on the
`commitLock.Lock()` line says the lock must come before the wait. -/
def CommitSyncActs : List Act :=
  [.logAct, .lockMid, .lockCommitMtx, .unlockMid, .lockRW,
   .logAct, .appCall .commitM, .logAct,
   .unlockRW, .unlockCommitMtx, .retResult]

/-- `EndBlockAsync` (source lines 310-328). -/
def EndBlockAsyncActs : List Act :=
  [.logAct, .lockMid, .lockCommitMtx, .unlockMid, .wgWait, .lockRW,
   .logAct, .appCall .endBlockM, .logAct, .globalCallback,
   .unlockRW, .unlockCommitMtx, .retReqRes]

/-- `EndBlockSync` (source lines 407-422). -/
def EndBlockSyncActs : List Act :=
  [.logAct, .lockMid, .lockCommitMtx, .unlockMid, .wgWait, .lockRW,
   .logAct, .appCall .endBlockM, .logAct,
   .unlockRW, .unlockCommitMtx, .retResult]

/-- Per-item body of `checkTxWorker` (source lines 111-131).
`slotEmpty` is the runtime test `i.reqRes.Response == nil` (pre-check did
not short-circuit); `hasCb` is the runtime test that a per-request
callback was attached. -/
def checkTxWorkerBody (slotEmpty hasCb : Bool) : List Act :=
  [.gateLock, .gateUnlock, .lockRW]
    ++ (if slotEmpty then [.appCall .checkTxM, .setResponseSlot] else [])
    ++ [.reqResDone, .wgDone]
    ++ (if hasCb then [.perReqCallback] else [])
    ++ [.globalCallback, .unlockRW]

/-- Per-item body of `deliverTxWorker` (source lines 133-153). -/
def deliverTxWorkerBody (slotEmpty hasCb : Bool) : List Act :=
  [.gateLock, .gateUnlock, .lockRW]
    ++ (if slotEmpty then [.appCall .deliverTxM, .setResponseSlot] else [])
    ++ [.reqResDone, .wgDone]
    ++ (if hasCb then [.perReqCallback] else [])
    ++ [.globalCallback, .unlockRW]

/-- `SetResponseCallback` (source lines 105-109). -/
def SetResponseCallbackActs : List Act := [.lockRW, .unlockRW, .retResult]

/-- `InfoAsync` (source lines 172-180). -/
def InfoAsyncActs : List Act :=
  [.rlockRW, .appCall .infoM, .runlockRW, .globalCallback, .retReqRes]

/-- `SetOptionAsync` (source lines 182-190). -/
def SetOptionAsyncActs : List Act :=
  [.lockRW, .appCall .setOptionM, .globalCallback, .unlockRW, .retReqRes]

/-- `ReCheckTxAsync` (source lines 245-256): a direct, write-locked call. -/
def ReCheckTxAsyncActs : List Act :=
  [.lockRW, .hashAct, .logAct, .appCall .reCheckTxM, .logAct,
   .globalCallback, .unlockRW, .retReqRes]

/-- `QueryAsync` (source lines 259-267). -/
def QueryAsyncActs : List Act :=
  [.rlockRW, .appCall .queryM, .runlockRW, .globalCallback, .retReqRes]

/-- `InitChainAsync` (source lines 289-298). -/
def InitChainAsyncActs : List Act :=
  [.lockRW, .appCall .initChainM, .globalCallback, .unlockRW, .retReqRes]

/-- `BeginBlockAsync` (source lines 300-308). -/
def BeginBlockAsyncActs : List Act :=
  [.lockRW, .appCall .beginBlockM, .globalCallback, .unlockRW, .retReqRes]

/-- Pre-check task scheduled on the check pool by `CheckTxAsync` (source
lines 232-240): run `PreCheckTx`; on a non-OK result write the response
slot; the deferred gate unlock runs last. -/
def checkPreTaskActs (preOK : Bool) : List Act :=
  [.logAct, .appCall .preCheckTxM]
    ++ (if preOK then [] else [.setResponseSlot])
    ++ [.logAct, .gateUnlock]

/-- Pre-deliver task scheduled on the deliver pool by `DeliverTxAsync`
(source lines 203-211). -/
def deliverPreTaskActs (preOK : Bool) : List Act :=
  [.logAct, .appCall .preDeliverTxM]
    ++ (if preOK then [] else [.setResponseSlot])
    ++ [.logAct, .gateUnlock]

/-! ## Helpers over action lists -/

/-- Index of the first occurrence of an action in a program. -/
def firstIdxOf (p : List Act) (a : Act) : Option Nat :=
  p.findIdx? (fun x => decide (x = a))

/-- `wgWaitBefore p a` holds when the program performs `wgCommit.Wait()`
and does so strictly before its first occurrence of `a`. -/
def wgWaitBefore (p : List Act) (a : Act) : Bool :=
  match firstIdxOf p Act.wgWait, firstIdxOf p a with
  | some i, some j => decide (i < j)
  | _, _ => false

/-- Actions of the three-mutex admission protocol together with the
shared-pipeline effects whose order the admission claim constrains
(queue send, counter increment, pre-task scheduling, return). -/
def coordAct : Act → Bool
  | .lockLow | .unlockLow => true
  | .lockMid | .unlockMid => true
  | .lockCommitMtx | .unlockCommitMtx => true
  | .enqueueCheck | .enqueueDeliver => true
  | .wgAdd => true
  | .scheduleCheckPre | .scheduleDeliverPre => true
  | .retReqRes => true
  | _ => false

/-- Lock operations (any of the three mutexes or the RWMutex, in either
mode). -/
def isLockAct : Act → Bool
  | .lockLow | .unlockLow => true
  | .lockMid | .unlockMid => true
  | .lockCommitMtx | .unlockCommitMtx => true
  | .lockRW | .unlockRW | .rlockRW | .runlockRW => true
  | _ => false

/-- Actions that read or write state shared beyond the submitting call
(queues, the wait group, pool scheduling, the response machinery, the
application itself). -/
def touchesShared : Act → Bool
  | .enqueueCheck | .enqueueDeliver => true
  | .wgAdd | .wgDone | .wgWait => true
  | .scheduleCheckPre | .scheduleDeliverPre => true
  | .appCall _ => true
  | .setResponseSlot | .reqResDone => true
  | .perReqCallback | .globalCallback => true
  | a => isLockAct a

/-- The sub-list of a program strictly between its first `lockRW` and the
next `unlockRW`: the write-mode critical section. -/
def critSection (p : List Act) : List Act :=
  ((p.dropWhile (fun a => decide (a ≠ Act.lockRW))).drop 1).takeWhile
    (fun a => decide (a ≠ Act.unlockRW))

/-! ## Construction (`NewAsyncLocalClient` / `NewABCIClient`) -/

/-- Worker pool size constant (source line 24). -/
def WorkerPoolSize : Nat := 16

/-- Worker pool spawn constant (source line 25). -/
def WorkerPoolSpawn : Nat := 4

/-- Worker pool queue constant (source line 26). -/
def WorkerPoolQueue : Nat := 16

/-- The wrapped application as seen by construction: the only property
construction inspects is whether the Go type assertion
`app.(ApplicationCC)` succeeds. -/
structure GoApp where
  implementsCC : Bool
deriving DecidableEq

/-- Construction-relevant configuration of an `asyncLocalClient`
(source lines 71-83): pool sizes and ordered-queue capacities. -/
structure AsyncLocalClientModel where
  checkTxPoolSize : Nat
  deliverTxPoolSize : Nat
  checkTxQueueCap : Nat
  deliverTxQueueCap : Nat
deriving DecidableEq

/-- `NewAsyncLocalClient` (source lines 64-86): if the application does
not implement `ApplicationCC` the function returns nil (modelled as
`none`); otherwise it builds the client with the source's pool sizes and
queue capacities. -/
def NewAsyncLocalClient (app : GoApp) : Option AsyncLocalClientModel :=
  if app.implementsCC then
    some
      { checkTxPoolSize := WorkerPoolSize / 2
        deliverTxPoolSize := WorkerPoolSize
        checkTxQueueCap := WorkerPoolQueue * 2
        deliverTxQueueCap := WorkerPoolQueue * 2 }
  else none

/-- The creator returned by `NewAsyncLocalClientCreator` (source lines
438-448), holding the wrapped application. -/
structure LocalAsyncClientCreator where
  app : GoApp
deriving DecidableEq

/-- A Go error value; `none` is the nil error. -/
abbrev GoError := Unit

/-- `NewABCIClient` (source lines 450-453): returns the result of
`NewAsyncLocalClient` paired with a nil error, unconditionally. -/
def NewABCIClient (c : LocalAsyncClientCreator) :
    Option AsyncLocalClientModel × Option GoError :=
  (NewAsyncLocalClient c.app, none)

/-! ## Claim theorems on the action-trace embedding -/

/-- Claim C1: every commit-class operation blocks on the in-flight
counter before the application call.  This holds for `CommitAsync`,
`EndBlockAsync` and `EndBlockSync`, whose traces perform `wgCommit.Wait()`
strictly before the application call, but it FAILS for `CommitSync`,
whose trace reaches `Application.Commit()` without ever performing
`wgCommit.Wait()` - contradicting the comment in its own body. -/
theorem C1_commitSync_missing_wait :
    wgWaitBefore CommitAsyncActs (Act.appCall .commitM) = true ∧
    wgWaitBefore EndBlockAsyncActs (Act.appCall .endBlockM) = true ∧
    wgWaitBefore EndBlockSyncActs (Act.appCall .endBlockM) = true ∧
    Act.appCall .commitM ∈ CommitSyncActs ∧
    Act.wgWait ∉ CommitSyncActs := by decide

/-- The admission step order stated by the specification for a
validate-class submission: admission mutex, arbitration mutex, commit
mutex, release arbitration, enqueue, increment, release commit, release
admission, then (all locks released) schedule the pre-validation task and
return the handle.  This definition transcribes the claim's words and is
compared against the source-derived trace. -/
def specCheckTxAdmissionOrder : List Act :=
  [.lockLow, .lockMid, .lockCommitMtx, .unlockMid,
   .enqueueCheck, .wgAdd, .unlockCommitMtx, .unlockLow,
   .scheduleCheckPre, .retReqRes]

/-- Claim C6: the coordination actions of `CheckTxAsync`, in program
order, are exactly the admission protocol steps the claim lists, with the
pre-validation task scheduled and the handle returned only after all
locks are released. -/
theorem C6_admission_order :
    CheckTxAsyncActs.filter coordAct = specCheckTxAdmissionOrder := by decide

/-- Claim C8: `DeliverTxAsync` performs no lock operation at all (none of
the three admission mutexes, nor the exclusivity lock in either mode),
and its only shared-state effects, in order, are the enqueue on the
apply-class queue, the in-flight counter increment, and the scheduling of
the pre-apply task. -/
theorem C8_deliver_frame :
    DeliverTxAsyncActs.filter isLockAct = [] ∧
    DeliverTxAsyncActs.filter touchesShared =
      [.enqueueDeliver, .wgAdd, .scheduleDeliverPre] := by decide

/-- Claim C7, counterexample: for an application that does not implement
the required capability set, construction does fail
(`NewAsyncLocalClient` returns nil), yet `NewABCIClient` does NOT surface
the failure to the caller: its error result is nil.  This refutes the
claim that the construction failure is surfaced by `NewABCIClient`. -/
theorem C7_surfacing_counterexample :
    ¬ (NewAsyncLocalClient { implementsCC := false } = none →
        (NewABCIClient { app := { implementsCC := false } }).2 ≠ none) := by
  decide

/-- Claim C7, amended: `NewAsyncLocalClient` yields a client exactly when
the application implements `ApplicationCC` (so construction over a
deficient application yields no usable client), and `NewABCIClient`
passes that result through unchanged while always returning a nil error -
the construction failure reaches the caller only as a nil client value,
never through the error result. -/
theorem C7_construction_amended (app : GoApp) :
    (NewAsyncLocalClient app).isSome = app.implementsCC ∧
    (NewABCIClient { app := app }).1 = NewAsyncLocalClient app ∧
    (NewABCIClient { app := app }).2 = none := by
  rcases app with ⟨b⟩
  cases b <;> exact ⟨rfl, rfl, rfl⟩

/-! ## RWMutex discipline (claim C5) -/

/-- The call paths of the client that acquire the shared `rwLock` around
their application call. -/
inductive ClientOp where
  | workerCheckTxOp   -- checkTxWorker critical section
  | workerDeliverTxOp -- deliverTxWorker critical section
  | commitOp          -- CommitAsync / CommitSync
  | endBlockOp        -- EndBlockAsync / EndBlockSync
  | setOptionOp       -- SetOptionAsync / SetOptionSync
  | initChainOp       -- InitChainAsync / InitChainSync
  | beginBlockOp      -- BeginBlockAsync / BeginBlockSync
  | reCheckTxOp       -- ReCheckTxAsync
  | setCallbackOp     -- SetResponseCallback
  | checkTxSyncOp     -- CheckTxSync
  | deliverTxSyncOp   -- DeliverTxSync
  | infoOp            -- InfoAsync / InfoSync
  | queryOp           -- QueryAsync / QuerySync
deriving DecidableEq

/-- RWMutex acquisition modes. -/
inductive RWMode where
  | writeMode | readMode
deriving DecidableEq

/-- The mode in which each call path acquires `rwLock`, read off the
source: every path calls `Lock()` except `Info` and `Query`, which call
`RLock()`. -/
def rwMode : ClientOp → RWMode
  | .workerCheckTxOp => .writeMode
  | .workerDeliverTxOp => .writeMode
  | .commitOp => .writeMode
  | .endBlockOp => .writeMode
  | .setOptionOp => .writeMode
  | .initChainOp => .writeMode
  | .beginBlockOp => .writeMode
  | .reCheckTxOp => .writeMode
  | .setCallbackOp => .writeMode
  | .checkTxSyncOp => .writeMode
  | .deliverTxSyncOp => .writeMode
  | .infoOp => .readMode
  | .queryOp => .readMode

/-- Whether an operation is a write-mode holder. -/
def isWriteOp (op : ClientOp) : Bool :=
  match rwMode op with
  | .writeMode => true
  | .readMode => false

/-- Semantics of a Go `sync.RWMutex`: a writer may enter only when there
is no holder at all; a reader may enter only when every current holder is
a reader. -/
def canEnter : RWMode → List ClientOp → Prop
  | .writeMode, held => held = []
  | .readMode, held => ∀ o ∈ held, rwMode o = RWMode.readMode

/-- One step of lock traffic: an operation enters in its mode, or any
current holder leaves. -/
inductive RWStep : List ClientOp → List ClientOp → Prop
  | enter (op : ClientOp) (held : List ClientOp) :
      canEnter (rwMode op) held → RWStep held (op :: held)
  | leave (op : ClientOp) (l r : List ClientOp) :
      RWStep (l ++ op :: r) (l ++ r)

/-- Lock states reachable from the free lock. -/
def RWReachable (held : List ClientOp) : Prop :=
  Relation.ReflTransGen RWStep [] held

/-- The RWMutex invariant: either every holder is a reader, or there is a
single holder and it is a writer. -/
def rwInv (held : List ClientOp) : Prop :=
  (∀ o ∈ held, rwMode o = RWMode.readMode) ∨
  (∃ op, held = [op] ∧ rwMode op = RWMode.writeMode)

theorem rwInv_step {held held' : List ClientOp} (hinv : rwInv held)
    (hstep : RWStep held held') : rwInv held' := by
  cases hstep with
  | enter op h hc =>
    cases hm : rwMode op with
    | writeMode =>
      rw [hm] at hc
      subst hc
      exact Or.inr ⟨op, rfl, hm⟩
    | readMode =>
      rw [hm] at hc
      refine Or.inl ?_
      intro o ho
      rcases List.mem_cons.mp ho with h1 | h2
      · exact h1 ▸ hm
      · exact hc o h2
  | leave op l r =>
    rcases hinv with hall | ⟨op', heq, hw⟩
    · refine Or.inl ?_
      intro o ho
      refine hall o ?_
      rcases List.mem_append.mp ho with h1 | h2
      · exact List.mem_append.mpr (Or.inl h1)
      · exact List.mem_append.mpr (Or.inr (List.mem_cons_of_mem _ h2))
    · -- a singleton writer leaves: the lock becomes free
      have hlen := congrArg List.length heq
      simp only [List.length_append, List.length_cons, List.length_nil] at hlen
      have hl : l = [] := List.length_eq_zero.mp (by omega)
      have hr : r = [] := List.length_eq_zero.mp (by omega)
      subst hl; subst hr
      exact Or.inl (by intro o ho; cases ho)

theorem rwInv_reachable {held : List ClientOp} (h : RWReachable held) :
    rwInv held := by
  induction h with
  | refl => exact Or.inl (by intro o ho; cases ho)
  | tail _ hstep ih => exact rwInv_step ih hstep

/-- Claim C5: (a) every listed write-mode path acquires `rwLock` in write
mode and the read-mode paths (`Info`, `Query`) acquire it in read mode,
as the action traces show; (b) under the RWMutex semantics, every
reachable holder set contains at most one write-mode operation, and if it
contains one then it is the only holder of any kind - so no two
write-mode operations run concurrently and no read-mode operation
overlaps a write-mode holder; (c) two read-mode operations can in fact
hold the lock at the same time. -/
theorem C5_exclusivity :
    ((Act.lockRW ∈ checkTxWorkerBody true true ∧
      Act.lockRW ∈ deliverTxWorkerBody true true ∧
      Act.lockRW ∈ CommitAsyncActs ∧
      Act.lockRW ∈ SetOptionAsyncActs ∧
      Act.lockRW ∈ InitChainAsyncActs ∧
      Act.lockRW ∈ BeginBlockAsyncActs ∧
      Act.lockRW ∈ ReCheckTxAsyncActs ∧
      Act.lockRW ∈ SetResponseCallbackActs ∧
      Act.rlockRW ∈ InfoAsyncActs ∧
      Act.rlockRW ∈ QueryAsyncActs ∧
      Act.lockRW ∉ InfoAsyncActs ∧
      Act.lockRW ∉ QueryAsyncActs) ∧
     isWriteOp .workerCheckTxOp = true ∧ isWriteOp .workerDeliverTxOp = true ∧
     isWriteOp .commitOp = true ∧ isWriteOp .setOptionOp = true ∧
     isWriteOp .initChainOp = true ∧ isWriteOp .beginBlockOp = true ∧
     isWriteOp .reCheckTxOp = true ∧ isWriteOp .setCallbackOp = true ∧
     isWriteOp .infoOp = false ∧ isWriteOp .queryOp = false) ∧
    (∀ held, RWReachable held →
      held.countP isWriteOp ≤ 1 ∧
      (1 ≤ held.countP isWriteOp → held.length = 1)) ∧
    RWReachable [ClientOp.queryOp, ClientOp.infoOp] := by
  refine ⟨by decide, ?_, ?_⟩
  · intro held h
    rcases rwInv_reachable h with hall | ⟨op, heq, hw⟩
    · have hz : held.countP isWriteOp = 0 := by
        rw [List.countP_eq_zero]
        intro o ho
        have := hall o ho
        simp [isWriteOp, this]
      constructor
      · omega
      · intro hge; omega
    · subst heq
      constructor
      · simp [List.countP_cons]
        split <;> omega
      · intro _; rfl
  · have h1 : RWStep [] [ClientOp.infoOp] :=
      RWStep.enter .infoOp [] (by intro o ho; cases ho)
    have h2 : RWStep [ClientOp.infoOp] [ClientOp.queryOp, ClientOp.infoOp] := by
      refine RWStep.enter .queryOp [ClientOp.infoOp] ?_
      intro o ho
      rcases List.mem_cons.mp ho with hx | hx
      · exact hx ▸ rfl
      · cases hx
    exact Relation.ReflTransGen.tail (Relation.ReflTransGen.single h1) h2

/-- Claim C5, witness: the safety part of the claim theorem evaluated at
the reachable holder set consisting of one write-mode holder
(`beginBlockOp`). -/
theorem C5_exclusivity_witness :
    [ClientOp.beginBlockOp].countP isWriteOp ≤ 1 ∧
    (1 ≤ [ClientOp.beginBlockOp].countP isWriteOp →
      [ClientOp.beginBlockOp].length = 1) :=
  C5_exclusivity.2.1 [ClientOp.beginBlockOp]
    (Relation.ReflTransGen.single (RWStep.enter .beginBlockOp [] rfl))

/-! ## Operational model of an ordered pipeline (claims C2, C3, C4, C9) -/

/-- A transaction payload (Go `[]byte`). -/
abbrev Tx := List Nat

/-- An ABCI response; the only field the pipeline inspects is the result
code (`res.IsOK()` is `Code == 0`). -/
structure Response where
  code : Nat
deriving DecidableEq

/-- `IsOK` on a response, as in the source pre-check tests. -/
def Response.IsOK (r : Response) : Bool := r.code == 0

/-- One pipeline's pair of application calls: the parallel-safe pre-call
(`PreCheckTx` / `PreDeliverTx`) and the ordered real call (`CheckTx` /
`DeliverTx`). -/
structure PipeApp where
  preCall : Tx → Response
  realCall : Tx → Response

/-- The wrapped application's capability set, restricted to the methods
the two pipelines invoke. -/
structure ApplicationCC where
  CheckTx : Tx → Response
  PreCheckTx : Tx → Response
  DeliverTx : Tx → Response
  PreDeliverTx : Tx → Response

/-- The validate-class pipeline's view of the application. -/
def checkPipeOf (app : ApplicationCC) : PipeApp :=
  { preCall := app.PreCheckTx, realCall := app.CheckTx }

/-- The apply-class pipeline's view of the application. -/
def deliverPipeOf (app : ApplicationCC) : PipeApp :=
  { preCall := app.PreDeliverTx, realCall := app.DeliverTx }

/-- State of one ordered pipeline.  `submitted` records every admitted
request in admission order (index = WorkItem identity); `queue` is the
bounded FIFO channel of not-yet-resolved item indices; `gate i` is true
once item `i`'s pre-task has released its ordering gate; `slot` is the
WorkItem response slot (written by the pre-task on failure, by the worker
otherwise); `delivered` records the response each resolved item's
callbacks received; `appCalls` is the order of real application calls
made by the worker; `callbacks` is the callback delivery order; `wg` is
this pipeline's contribution to the shared `wgCommit` counter. -/
structure PipeState where
  submitted : List Tx
  queue : List Nat
  gate : Nat → Bool
  slot : Nat → Option Response
  delivered : Nat → Option Response
  appCalls : List Nat
  callbacks : List Nat
  wg : Int

/-- The transaction of item `i`. -/
def txAt (s : PipeState) (i : Nat) : Tx := s.submitted.getD i []

/-- Effect of an admission (`CheckTxAsync` lines 222-232, atomic with
respect to other submissions and to commit by the three-lock protocol):
the new WorkItem, with its gate held, is appended to the FIFO queue and
the in-flight counter is incremented; the pre-task is scheduled. -/
def submitEffect (s : PipeState) (tx : Tx) : PipeState :=
  { s with
    submitted := s.submitted ++ [tx]
    queue := s.queue ++ [s.submitted.length]
    wg := s.wg + 1 }

/-- Effect of item `i`'s pre-task completing (`CheckTxAsync` lines
232-240): if the pre-call result is non-OK it is written into the
response slot; in every case the ordering gate is released. -/
def preEffect (pa : PipeApp) (s : PipeState) (i : Nat) : PipeState :=
  let r := pa.preCall (txAt s i)
  { s with
    gate := Function.update s.gate i true
    slot := if r.IsOK then s.slot else Function.update s.slot i (some r) }

/-- Effect of the ordered worker resolving head item `i` (`checkTxWorker`
lines 113-129, all under the write lock): if the response slot is still
empty the real application call is made and stored; the item is marked
done, the counter decremented, and the callbacks fired with the slot's
response. -/
def workerEffect (pa : PipeApp) (s : PipeState) (i : Nat) (rest : List Nat) :
    PipeState :=
  match s.slot i with
  | none =>
      let r := pa.realCall (txAt s i)
      { s with
        queue := rest
        slot := Function.update s.slot i (some r)
        delivered := Function.update s.delivered i (some r)
        appCalls := s.appCalls ++ [i]
        callbacks := s.callbacks ++ [i]
        wg := s.wg - 1 }
  | some r =>
      { s with
        queue := rest
        delivered := Function.update s.delivered i (some r)
        callbacks := s.callbacks ++ [i]
        wg := s.wg - 1 }

/-- Small-step transition relation of one pipeline with queue capacity
`cap`.  A submission requires channel space (a full channel blocks the
submitter); a pre-task may complete for any admitted item whose gate is
still held, in any order; the worker resolves only the head of the FIFO
queue and only once that item's gate has been released. -/
inductive PipeStep (pa : PipeApp) (cap : Nat) : PipeState → PipeState → Prop
  | submit (s : PipeState) (tx : Tx) :
      s.queue.length < cap →
      PipeStep pa cap s (submitEffect s tx)
  | preFinish (s : PipeState) (i : Nat) :
      i < s.submitted.length →
      s.gate i = false →
      PipeStep pa cap s (preEffect pa s i)
  | workerStep (s : PipeState) (i : Nat) (rest : List Nat) :
      s.queue = i :: rest →
      s.gate i = true →
      PipeStep pa cap s (workerEffect pa s i rest)

/-- The pipeline's initial state: nothing admitted, counter zero. -/
def initPipeState : PipeState :=
  { submitted := []
    queue := []
    gate := fun _ => false
    slot := fun _ => none
    delivered := fun _ => none
    appCalls := []
    callbacks := []
    wg := 0 }

/-- Pipeline states reachable from the initial state. -/
def PipeReach (pa : PipeApp) (cap : Nat) (s : PipeState) : Prop :=
  Relation.ReflTransGen (PipeStep pa cap) initPipeState s

/-- The response an item with transaction `tx` must end up delivering:
the pre-call result if it short-circuited, the real call result
otherwise. -/
def finalResponse (pa : PipeApp) (tx : Tx) : Response :=
  if (pa.preCall tx).IsOK then pa.realCall tx else pa.preCall tx

/-- The pipeline invariant.  In order: (1) the resolved items followed by
the queued items are exactly the admitted indices in admission order;
(2) the in-flight counter equals the number of queued items; (3) a
queued item has no delivered response, its slot is empty until its gate
opens, and once the gate is open the slot holds exactly the non-OK
pre-call result (or nothing if the pre-call passed); (4) a resolved item
has an open gate and delivered exactly its final response; (5) the real
application calls are exactly the resolved items whose pre-call passed,
in resolution order; (6) indices never admitted are untouched. -/
def PipeInv (pa : PipeApp) (s : PipeState) : Prop :=
  s.callbacks ++ s.queue = List.range s.submitted.length ∧
  s.wg = (s.queue.length : Int) ∧
  (∀ i ∈ s.queue,
      s.delivered i = none ∧
      (s.gate i = false → s.slot i = none) ∧
      (s.gate i = true →
        s.slot i = if (pa.preCall (txAt s i)).IsOK then none
                   else some (pa.preCall (txAt s i)))) ∧
  (∀ i ∈ s.callbacks,
      s.gate i = true ∧
      s.delivered i = some (finalResponse pa (txAt s i))) ∧
  s.appCalls = s.callbacks.filter (fun i => (pa.preCall (txAt s i)).IsOK) ∧
  (∀ i, s.submitted.length ≤ i →
      s.gate i = false ∧ s.slot i = none ∧ s.delivered i = none)

/-! ## Pipeline invariant proofs -/

theorem getD_append_left_of_lt {l l' : List Tx} {i : Nat} (h : i < l.length) :
    (l ++ l').getD i [] = l.getD i [] := by
  simp [List.getD, List.getElem?_append_left h]

theorem txAt_submitEffect {s : PipeState} {tx : Tx} {i : Nat}
    (h : i < s.submitted.length) : txAt (submitEffect s tx) i = txAt s i := by
  simp only [txAt, submitEffect]
  exact getD_append_left_of_lt h

theorem workerEffect_of_slot_none (pa : PipeApp) (s : PipeState) (i : Nat)
    (rest : List Nat) (h : s.slot i = none) :
    workerEffect pa s i rest =
      { s with
        queue := rest
        slot := Function.update s.slot i (some (pa.realCall (txAt s i)))
        delivered := Function.update s.delivered i (some (pa.realCall (txAt s i)))
        appCalls := s.appCalls ++ [i]
        callbacks := s.callbacks ++ [i]
        wg := s.wg - 1 } := by
  simp only [workerEffect, h]

theorem workerEffect_of_slot_some (pa : PipeApp) (s : PipeState) (i : Nat)
    (rest : List Nat) (r : Response) (h : s.slot i = some r) :
    workerEffect pa s i rest =
      { s with
        queue := rest
        delivered := Function.update s.delivered i (some r)
        callbacks := s.callbacks ++ [i]
        wg := s.wg - 1 } := by
  simp only [workerEffect, h]

theorem pipeInv_step {pa : PipeApp} {cap : Nat} {s s' : PipeState}
    (hinv : PipeInv pa s) (hstep : PipeStep pa cap s s') : PipeInv pa s' := by
  obtain ⟨hrange, hwg, hqueue, hcb, happ, htail⟩ := hinv
  have hmemq : ∀ i ∈ s.queue, i < s.submitted.length := by
    intro i hi
    exact List.mem_range.mp (hrange ▸ List.mem_append.mpr (Or.inr hi))
  have hmemc : ∀ i ∈ s.callbacks, i < s.submitted.length := by
    intro i hi
    exact List.mem_range.mp (hrange ▸ List.mem_append.mpr (Or.inl hi))
  cases hstep with
  | submit tx hcap =>
    have hlen : (s.submitted ++ [tx]).length = s.submitted.length + 1 := by simp
    refine ⟨?_, ?_, ?_, ?_, ?_, ?_⟩
    · show s.callbacks ++ (s.queue ++ [s.submitted.length])
          = List.range (s.submitted ++ [tx]).length
      have hr : List.range (s.submitted.length + 1)
          = List.range s.submitted.length ++ [s.submitted.length] :=
        List.range_succ s.submitted.length
      rw [hlen, hr, ← List.append_assoc, hrange]
    · show s.wg + 1 = ((s.queue ++ [s.submitted.length]).length : Int)
      rw [hwg]
      simp only [List.length_append, List.length_cons, List.length_nil]
      omega
    · intro i hi
      simp only [submitEffect] at hi
      rcases List.mem_append.mp hi with hiq | hin
      · obtain ⟨hd, hg1, hg2⟩ := hqueue i hiq
        have hilt := hmemq i hiq
        refine ⟨hd, hg1, ?_⟩
        intro hgt
        rw [txAt_submitEffect hilt]
        exact hg2 hgt
      · have hn : i = s.submitted.length := by simpa using hin
        subst hn
        obtain ⟨hgf, hsl, hdl⟩ := htail s.submitted.length (le_refl _)
        refine ⟨hdl, fun _ => hsl, ?_⟩
        intro hgt
        have h2 : s.gate s.submitted.length = true := hgt
        rw [hgf] at h2
        cases h2
    · intro i hi
      simp only [submitEffect] at hi
      obtain ⟨hg, hd⟩ := hcb i hi
      refine ⟨hg, ?_⟩
      rw [txAt_submitEffect (hmemc i hi)]
      exact hd
    · show s.appCalls = s.callbacks.filter
          (fun i => (pa.preCall (txAt (submitEffect s tx) i)).IsOK)
      rw [happ]
      refine List.filter_congr ?_
      intro i hi
      show (pa.preCall (txAt s i)).IsOK
          = (pa.preCall (txAt (submitEffect s tx) i)).IsOK
      rw [txAt_submitEffect (hmemc i hi)]
    · intro i hile
      have hile2 : (s.submitted ++ [tx]).length ≤ i := hile
      rw [hlen] at hile2
      exact htail i (by omega)
  | preFinish i hilt hgf =>
    have hic : i ∉ s.callbacks := by
      intro hmem
      have h2 := (hcb i hmem).1
      rw [hgf] at h2
      cases h2
    have hiq : i ∈ s.queue := by
      have h2 : i ∈ s.callbacks ++ s.queue := by
        rw [hrange]; exact List.mem_range.mpr hilt
      rcases List.mem_append.mp h2 with h3 | h3
      · exact absurd h3 hic
      · exact h3
    have hslnone : s.slot i = none := (hqueue i hiq).2.1 hgf
    refine ⟨hrange, hwg, ?_, ?_, happ, ?_⟩
    · intro j hj
      have hjq : j ∈ s.queue := hj
      obtain ⟨hd, hg1, hg2⟩ := hqueue j hjq
      by_cases hji : j = i
      · subst hji
        refine ⟨hd, ?_, ?_⟩
        · intro hgt
          have h2 : Function.update s.gate j true j = false := hgt
          rw [Function.update_same] at h2
          cases h2
        · intro _
          show (if (pa.preCall (txAt s j)).IsOK = true then s.slot
                else Function.update s.slot j (some (pa.preCall (txAt s j)))) j
              = if (pa.preCall (txAt s j)).IsOK = true then none
                else some (pa.preCall (txAt s j))
          by_cases hok : (pa.preCall (txAt s j)).IsOK = true
          · rw [if_pos hok, if_pos hok]; exact hslnone
          · rw [if_neg hok, if_neg hok, Function.update_same]
      · refine ⟨hd, ?_, ?_⟩
        · intro hgt
          have h2 : Function.update s.gate i true j = false := hgt
          rw [Function.update_noteq hji] at h2
          show (if (pa.preCall (txAt s i)).IsOK = true then s.slot
                else Function.update s.slot i (some (pa.preCall (txAt s i)))) j
              = none
          by_cases hok : (pa.preCall (txAt s i)).IsOK = true
          · rw [if_pos hok]; exact hg1 h2
          · rw [if_neg hok, Function.update_noteq hji]; exact hg1 h2
        · intro hgt
          have hgj : s.gate j = true := by
            have h2 : Function.update s.gate i true j = true := hgt
            rwa [Function.update_noteq hji] at h2
          show (if (pa.preCall (txAt s i)).IsOK = true then s.slot
                else Function.update s.slot i (some (pa.preCall (txAt s i)))) j
              = if (pa.preCall (txAt s j)).IsOK = true then none
                else some (pa.preCall (txAt s j))
          by_cases hok : (pa.preCall (txAt s i)).IsOK = true
          · rw [if_pos hok]; exact hg2 hgj
          · rw [if_neg hok, Function.update_noteq hji]; exact hg2 hgj
    · intro j hj
      have hjc : j ∈ s.callbacks := hj
      obtain ⟨hgj, hdj⟩ := hcb j hjc
      have hji : j ≠ i := by rintro rfl; exact hic hjc
      constructor
      · show Function.update s.gate i true j = true
        rw [Function.update_noteq hji]; exact hgj
      · exact hdj
    · intro j hje
      have hje2 : s.submitted.length ≤ j := hje
      obtain ⟨hgj, hsj, hdj⟩ := htail j hje2
      have hji : j ≠ i := by omega
      refine ⟨?_, ?_, hdj⟩
      · show Function.update s.gate i true j = false
        rw [Function.update_noteq hji]; exact hgj
      · show (if (pa.preCall (txAt s i)).IsOK = true then s.slot
              else Function.update s.slot i (some (pa.preCall (txAt s i)))) j
            = none
        by_cases hok : (pa.preCall (txAt s i)).IsOK = true
        · rw [if_pos hok]; exact hsj
        · rw [if_neg hok, Function.update_noteq hji]; exact hsj
  | workerStep i rest hq hgt =>
    have hiq : i ∈ s.queue := by rw [hq]; exact List.mem_cons_self i rest
    have hilt : i < s.submitted.length := hmemq i hiq
    have hnd : (s.callbacks ++ (i :: rest)).Nodup := by
      rw [← hq, hrange]; exact List.nodup_range _
    have hndq : (i :: rest).Nodup := (List.nodup_append.mp hnd).2.1
    have hir : i ∉ rest := (List.nodup_cons.mp hndq).1
    have hdisj : s.callbacks.Disjoint (i :: rest) := (List.nodup_append.mp hnd).2.2
    have hic : i ∉ s.callbacks := by
      intro hmem
      exact hdisj hmem (List.mem_cons_self i rest)
    obtain ⟨hdi, _, hslf⟩ := hqueue i hiq
    have hsli := hslf hgt
    have hwgq : s.wg = ((i :: rest).length : Int) := by rw [← hq]; exact hwg
    cases hok : (pa.preCall (txAt s i)).IsOK with
    | true =>
      have hslnone : s.slot i = none := by
        rw [hok] at hsli; simpa using hsli
      rw [workerEffect_of_slot_none pa s i rest hslnone]
      refine ⟨?_, ?_, ?_, ?_, ?_, ?_⟩
      · show (s.callbacks ++ [i]) ++ rest = List.range s.submitted.length
        rw [List.append_assoc, List.singleton_append, ← hq, hrange]
      · show s.wg - 1 = (rest.length : Int)
        simp only [List.length_cons] at hwgq
        omega
      · intro j hj
        have hjq : j ∈ s.queue := by rw [hq]; exact List.mem_cons_of_mem i hj
        have hji : j ≠ i := by rintro rfl; exact hir hj
        obtain ⟨hdj, hg1, hg2⟩ := hqueue j hjq
        refine ⟨?_, ?_, ?_⟩
        · show Function.update s.delivered i (some (pa.realCall (txAt s i))) j = none
          rw [Function.update_noteq hji]; exact hdj
        · intro hgf2
          show Function.update s.slot i (some (pa.realCall (txAt s i))) j = none
          rw [Function.update_noteq hji]; exact hg1 hgf2
        · intro hgt2
          show Function.update s.slot i (some (pa.realCall (txAt s i))) j
              = if (pa.preCall (txAt s j)).IsOK = true then none
                else some (pa.preCall (txAt s j))
          rw [Function.update_noteq hji]
          exact hg2 hgt2
      · intro j hj
        rcases List.mem_append.mp hj with hjc | hji0
        · have hji : j ≠ i := by rintro rfl; exact hic hjc
          obtain ⟨hgj, hdj⟩ := hcb j hjc
          refine ⟨hgj, ?_⟩
          show Function.update s.delivered i (some (pa.realCall (txAt s i))) j
              = some (finalResponse pa (txAt s j))
          rw [Function.update_noteq hji]
          exact hdj
        · have hji : j = i := by simpa using hji0
          subst hji
          refine ⟨hgt, ?_⟩
          show Function.update s.delivered j (some (pa.realCall (txAt s j))) j
              = some (finalResponse pa (txAt s j))
          rw [Function.update_same]
          unfold finalResponse
          rw [if_pos hok]
      · have hfi : List.filter (fun j => (pa.preCall (txAt s j)).IsOK) [i] = [i] := by
          simp [hok]
        show s.appCalls ++ [i] = (s.callbacks ++ [i]).filter
            (fun j => (pa.preCall (txAt s j)).IsOK)
        rw [@List.filter_append _ _ s.callbacks [i], hfi, happ]
      · intro j hje
        have hje2 : s.submitted.length ≤ j := hje
        obtain ⟨hgj, hsj, hdj⟩ := htail j hje2
        have hji : j ≠ i := by omega
        refine ⟨hgj, ?_, ?_⟩
        · show Function.update s.slot i (some (pa.realCall (txAt s i))) j = none
          rw [Function.update_noteq hji]; exact hsj
        · show Function.update s.delivered i (some (pa.realCall (txAt s i))) j = none
          rw [Function.update_noteq hji]; exact hdj
    | false =>
      have hslsome : s.slot i = some (pa.preCall (txAt s i)) := by
        rw [hok] at hsli; simpa using hsli
      rw [workerEffect_of_slot_some pa s i rest _ hslsome]
      have hnok : ¬((pa.preCall (txAt s i)).IsOK = true) := by
        rw [hok]; exact Bool.false_ne_true
      refine ⟨?_, ?_, ?_, ?_, ?_, ?_⟩
      · show (s.callbacks ++ [i]) ++ rest = List.range s.submitted.length
        rw [List.append_assoc, List.singleton_append, ← hq, hrange]
      · show s.wg - 1 = (rest.length : Int)
        simp only [List.length_cons] at hwgq
        omega
      · intro j hj
        have hjq : j ∈ s.queue := by rw [hq]; exact List.mem_cons_of_mem i hj
        have hji : j ≠ i := by rintro rfl; exact hir hj
        obtain ⟨hdj, hg1, hg2⟩ := hqueue j hjq
        refine ⟨?_, hg1, hg2⟩
        show Function.update s.delivered i (some (pa.preCall (txAt s i))) j = none
        rw [Function.update_noteq hji]; exact hdj
      · intro j hj
        rcases List.mem_append.mp hj with hjc | hji0
        · have hji : j ≠ i := by rintro rfl; exact hic hjc
          obtain ⟨hgj, hdj⟩ := hcb j hjc
          refine ⟨hgj, ?_⟩
          show Function.update s.delivered i (some (pa.preCall (txAt s i))) j
              = some (finalResponse pa (txAt s j))
          rw [Function.update_noteq hji]
          exact hdj
        · have hji : j = i := by simpa using hji0
          subst hji
          refine ⟨hgt, ?_⟩
          show Function.update s.delivered j (some (pa.preCall (txAt s j))) j
              = some (finalResponse pa (txAt s j))
          rw [Function.update_same]
          unfold finalResponse
          rw [if_neg hnok]
      · have hfi : List.filter (fun j => (pa.preCall (txAt s j)).IsOK) [i] = [] := by
          simp [hok]
        show s.appCalls = (s.callbacks ++ [i]).filter
            (fun j => (pa.preCall (txAt s j)).IsOK)
        rw [@List.filter_append _ _ s.callbacks [i], hfi, List.append_nil, happ]
      · intro j hje
        have hje2 : s.submitted.length ≤ j := hje
        obtain ⟨hgj, hsj, hdj⟩ := htail j hje2
        have hji : j ≠ i := by omega
        refine ⟨hgj, hsj, ?_⟩
        show Function.update s.delivered i (some (pa.preCall (txAt s i))) j = none
        rw [Function.update_noteq hji]; exact hdj

theorem pipeInv_reachable {pa : PipeApp} {cap : Nat} {s : PipeState}
    (h : PipeReach pa cap s) : PipeInv pa s := by
  induction h with
  | refl =>
    refine ⟨rfl, rfl, ?_, ?_, rfl, ?_⟩
    · intro i hi; cases hi
    · intro i hi; cases hi
    · intro i _; exact ⟨rfl, rfl, rfl⟩
  | tail _ hstep ih => exact pipeInv_step ih hstep

/-! ## Claim theorems on the pipeline model -/

theorem txAt_mem {s : PipeState} {i : Nat} (h : i < s.submitted.length) :
    txAt s i ∈ s.submitted := by
  rw [txAt, List.getD, List.get?_eq_getElem?, List.getElem?_eq_getElem h]
  exact List.getElem_mem h

/-- Claim C2: in the validate-class pipeline, the callback delivery order
is always a prefix of the submission order; once the queue is drained the
callbacks have fired for every submission, in exactly submission order;
and whenever every submitted transaction passes pre-validation, the real
application calls are exactly the callback sequence - hence also in
submission order - regardless of the order in which the pre-validation
steps fired.  (The model's `callbacks` trace records the worker firing
the per-request and the global callback, which it does back-to-back for
each item, so both share this order.) -/
theorem C2_fifo_preservation (app : ApplicationCC) (cap : Nat) (s : PipeState)
    (h : PipeReach (checkPipeOf app) cap s) :
    s.callbacks = (List.range s.submitted.length).take s.callbacks.length ∧
    (s.queue = [] → s.callbacks = List.range s.submitted.length) ∧
    ((∀ tx ∈ s.submitted, (app.PreCheckTx tx).IsOK = true) →
      s.appCalls = s.callbacks) := by
  obtain ⟨hrange, _, _, _, happ, _⟩ := pipeInv_reachable h
  have hmemc : ∀ i ∈ s.callbacks, i < s.submitted.length := by
    intro i hi
    exact List.mem_range.mp (hrange ▸ List.mem_append.mpr (Or.inl hi))
  refine ⟨?_, ?_, ?_⟩
  · rw [← hrange]
    exact (List.take_left s.callbacks s.queue).symm
  · intro hq
    rw [← hrange, hq, List.append_nil]
  · intro hall
    rw [happ]
    refine List.filter_eq_self.mpr ?_
    intro i hi
    show ((checkPipeOf app).preCall (txAt s i)).IsOK = true
    exact hall (txAt s i) (txAt_mem (hmemc i hi))

/-- A stub application whose pre-checks and real calls always succeed. -/
def allOKApp : ApplicationCC :=
  { CheckTx := fun _ => { code := 0 }
    PreCheckTx := fun _ => { code := 0 }
    DeliverTx := fun _ => { code := 0 }
    PreDeliverTx := fun _ => { code := 0 } }

/-- End-to-end scenario trace: three submissions, pre-validation finishing
in the reversed order 2, 0, 1, worker resolutions interleaved. -/
def c2s1 : PipeState := submitEffect initPipeState [0]

def c2s2 : PipeState := submitEffect c2s1 [1]

def c2s3 : PipeState := submitEffect c2s2 [2]

def c2s4 : PipeState := preEffect (checkPipeOf allOKApp) c2s3 2

def c2s5 : PipeState := preEffect (checkPipeOf allOKApp) c2s4 0

def c2s6 : PipeState := workerEffect (checkPipeOf allOKApp) c2s5 0 [1, 2]

def c2s7 : PipeState := preEffect (checkPipeOf allOKApp) c2s6 1

def c2s8 : PipeState := workerEffect (checkPipeOf allOKApp) c2s7 1 [2]

def c2s9 : PipeState := workerEffect (checkPipeOf allOKApp) c2s8 2 []

theorem c2_reach : PipeReach (checkPipeOf allOKApp) 32 c2s9 := by
  have h1 : PipeStep (checkPipeOf allOKApp) 32 initPipeState c2s1 :=
    PipeStep.submit _ [0] (by decide)
  have h2 : PipeStep (checkPipeOf allOKApp) 32 c2s1 c2s2 :=
    PipeStep.submit _ [1] (by decide)
  have h3 : PipeStep (checkPipeOf allOKApp) 32 c2s2 c2s3 :=
    PipeStep.submit _ [2] (by decide)
  have h4 : PipeStep (checkPipeOf allOKApp) 32 c2s3 c2s4 :=
    PipeStep.preFinish _ 2 (by decide) (by decide)
  have h5 : PipeStep (checkPipeOf allOKApp) 32 c2s4 c2s5 :=
    PipeStep.preFinish _ 0 (by decide) (by decide)
  have h6 : PipeStep (checkPipeOf allOKApp) 32 c2s5 c2s6 :=
    PipeStep.workerStep _ 0 [1, 2] (by decide) (by decide)
  have h7 : PipeStep (checkPipeOf allOKApp) 32 c2s6 c2s7 :=
    PipeStep.preFinish _ 1 (by decide) (by decide)
  have h8 : PipeStep (checkPipeOf allOKApp) 32 c2s7 c2s8 :=
    PipeStep.workerStep _ 1 [2] (by decide) (by decide)
  have h9 : PipeStep (checkPipeOf allOKApp) 32 c2s8 c2s9 :=
    PipeStep.workerStep _ 2 [] (by decide) (by decide)
  exact Relation.ReflTransGen.tail (Relation.ReflTransGen.tail
    (Relation.ReflTransGen.tail (Relation.ReflTransGen.tail
    (Relation.ReflTransGen.tail (Relation.ReflTransGen.tail
    (Relation.ReflTransGen.tail (Relation.ReflTransGen.tail
    (Relation.ReflTransGen.single h1) h2) h3) h4) h5) h6) h7) h8) h9

/-- Claim C2, witness: in the end-to-end scenario (pre-validation
completion order 2, 0, 1) the callbacks and the real application calls
both fired in exactly the submission order 0, 1, 2. -/
theorem C2_fifo_witness :
    c2s9.callbacks = [0, 1, 2] ∧ c2s9.appCalls = [0, 1, 2] ∧
    c2s9.queue = [] ∧ c2s9.callbacks = List.range c2s9.submitted.length :=
  ⟨by decide, by decide, by decide,
   (C2_fifo_preservation allOKApp 32 c2s9 c2_reach).2.1 (by decide)⟩

/-- Claim C3: for either pipeline (validate-class: `PreCheckTx`/`CheckTx`;
apply-class: `PreDeliverTx`/`DeliverTx`), every resolved item whose
pre-call returned non-OK never had the real application call invoked and
delivered exactly the pre-call result; every resolved item whose pre-call
returned OK had the real call invoked and delivered exactly its result. -/
theorem C3_short_circuit (app : ApplicationCC) (pa : PipeApp)
    (hpa : pa = checkPipeOf app ∨ pa = deliverPipeOf app)
    (cap : Nat) (s : PipeState) (h : PipeReach pa cap s)
    (i : Nat) (hi : i ∈ s.callbacks) :
    ((pa.preCall (txAt s i)).IsOK = false →
        i ∉ s.appCalls ∧ s.delivered i = some (pa.preCall (txAt s i))) ∧
    ((pa.preCall (txAt s i)).IsOK = true →
        i ∈ s.appCalls ∧ s.delivered i = some (pa.realCall (txAt s i))) := by
  obtain ⟨_, _, _, hcb, happ, _⟩ := pipeInv_reachable h
  obtain ⟨_, hd⟩ := hcb i hi
  constructor
  · intro hnok
    constructor
    · rw [happ]
      intro hmem
      have h2 : (pa.preCall (txAt s i)).IsOK = true := (List.mem_filter.mp hmem).2
      rw [hnok] at h2
      cases h2
    · rw [hd]
      unfold finalResponse
      rw [if_neg (by rw [hnok]; exact Bool.false_ne_true)]
  · intro hok2
    constructor
    · rw [happ]
      exact List.mem_filter.mpr ⟨hi, hok2⟩
    · rw [hd]
      unfold finalResponse
      rw [if_pos hok2]

/-- A stub application whose pre-checks reject exactly the transactions
with nonzero first byte (the rejection code is that byte) and whose real
calls return code 7. -/
def mixedApp : ApplicationCC :=
  { CheckTx := fun _ => { code := 7 }
    PreCheckTx := fun tx => { code := tx.headD 0 }
    DeliverTx := fun _ => { code := 7 }
    PreDeliverTx := fun tx => { code := tx.headD 0 } }

/-- Trace for the short-circuit witness: item 0 carries `[1]` (pre-check
rejects with code 1), item 1 carries `[0]` (pre-check passes). -/
def c3s1 : PipeState := submitEffect initPipeState [1]

def c3s2 : PipeState := submitEffect c3s1 [0]

def c3s3 : PipeState := preEffect (checkPipeOf mixedApp) c3s2 0

def c3s4 : PipeState := preEffect (checkPipeOf mixedApp) c3s3 1

def c3s5 : PipeState := workerEffect (checkPipeOf mixedApp) c3s4 0 [1]

def c3s6 : PipeState := workerEffect (checkPipeOf mixedApp) c3s5 1 []

theorem c3_reach : PipeReach (checkPipeOf mixedApp) 32 c3s6 := by
  have h1 : PipeStep (checkPipeOf mixedApp) 32 initPipeState c3s1 :=
    PipeStep.submit _ [1] (by decide)
  have h2 : PipeStep (checkPipeOf mixedApp) 32 c3s1 c3s2 :=
    PipeStep.submit _ [0] (by decide)
  have h3 : PipeStep (checkPipeOf mixedApp) 32 c3s2 c3s3 :=
    PipeStep.preFinish _ 0 (by decide) (by decide)
  have h4 : PipeStep (checkPipeOf mixedApp) 32 c3s3 c3s4 :=
    PipeStep.preFinish _ 1 (by decide) (by decide)
  have h5 : PipeStep (checkPipeOf mixedApp) 32 c3s4 c3s5 :=
    PipeStep.workerStep _ 0 [1] (by decide) (by decide)
  have h6 : PipeStep (checkPipeOf mixedApp) 32 c3s5 c3s6 :=
    PipeStep.workerStep _ 1 [] (by decide) (by decide)
  exact Relation.ReflTransGen.tail (Relation.ReflTransGen.tail
    (Relation.ReflTransGen.tail (Relation.ReflTransGen.tail
    (Relation.ReflTransGen.tail (Relation.ReflTransGen.single h1) h2) h3) h4)
    h5) h6

/-- Claim C3, witness: in the concrete trace, item 0's pre-check failed,
it never reached the real `CheckTx`, and its delivered response is the
pre-check result; item 1's pre-check passed and the real call's result
was delivered. -/
theorem C3_short_circuit_witness :
    (((checkPipeOf mixedApp).preCall (txAt c3s6 0)).IsOK = false ∧
      (0 ∉ c3s6.appCalls ∧
        c3s6.delivered 0 = some ((checkPipeOf mixedApp).preCall (txAt c3s6 0)))) ∧
    (((checkPipeOf mixedApp).preCall (txAt c3s6 1)).IsOK = true ∧
      (1 ∈ c3s6.appCalls ∧
        c3s6.delivered 1 = some ((checkPipeOf mixedApp).realCall (txAt c3s6 1)))) :=
  ⟨⟨by decide,
    (C3_short_circuit mixedApp (checkPipeOf mixedApp) (Or.inl rfl) 32 c3s6
      c3_reach 0 (by decide)).1 (by decide)⟩,
   ⟨by decide,
    (C3_short_circuit mixedApp (checkPipeOf mixedApp) (Or.inl rfl) 32 c3s6
      c3_reach 1 (by decide)).2 (by decide)⟩⟩

/-- Claim C4: (a) structurally, in both ordered workers the response-slot
write, the real application call, the ReqRes done-marking, the in-flight
counter decrement, and both callback invocations all lie strictly inside
the single `rwLock.Lock()` ... `rwLock.Unlock()` write-mode critical
section of the per-item body; (b) behaviorally, in any reachable pipeline
state in which the in-flight counter has reached zero - the condition
under which a waiting commit proceeds - the queue is empty and every
admitted item has been fully resolved: its callbacks fired and its final
response was delivered. -/
theorem C4_critical_section :
    (∀ se cb : Bool,
      Act.reqResDone ∈ critSection (checkTxWorkerBody se cb) ∧
      Act.wgDone ∈ critSection (checkTxWorkerBody se cb) ∧
      Act.globalCallback ∈ critSection (checkTxWorkerBody se cb) ∧
      Act.reqResDone ∈ critSection (deliverTxWorkerBody se cb) ∧
      Act.wgDone ∈ critSection (deliverTxWorkerBody se cb) ∧
      Act.globalCallback ∈ critSection (deliverTxWorkerBody se cb)) ∧
    (Act.setResponseSlot ∈ critSection (checkTxWorkerBody true true) ∧
     Act.appCall .checkTxM ∈ critSection (checkTxWorkerBody true true) ∧
     Act.perReqCallback ∈ critSection (checkTxWorkerBody true true) ∧
     Act.setResponseSlot ∈ critSection (deliverTxWorkerBody true true) ∧
     Act.appCall .deliverTxM ∈ critSection (deliverTxWorkerBody true true) ∧
     Act.perReqCallback ∈ critSection (deliverTxWorkerBody true true)) ∧
    (∀ (pa : PipeApp) (cap : Nat) (s : PipeState), PipeReach pa cap s →
      s.wg = 0 →
      s.queue = [] ∧
      s.callbacks = List.range s.submitted.length ∧
      ∀ i < s.submitted.length,
        i ∈ s.callbacks ∧ s.delivered i = some (finalResponse pa (txAt s i))) := by
  refine ⟨by decide, by decide, ?_⟩
  intro pa cap s h hwg0
  obtain ⟨hrange, hwg, _, hcb, _, _⟩ := pipeInv_reachable h
  have hq : s.queue = [] := by
    have h1 : (s.queue.length : Int) = 0 := by rw [← hwg, hwg0]
    have h2 : s.queue.length = 0 := by exact_mod_cast h1
    exact List.length_eq_zero.mp h2
  have hcbr : s.callbacks = List.range s.submitted.length := by
    rw [← hrange, hq, List.append_nil]
  refine ⟨hq, hcbr, ?_⟩
  intro i hilt
  have hic : i ∈ s.callbacks := by rw [hcbr]; exact List.mem_range.mpr hilt
  exact ⟨hic, (hcb i hic).2⟩

/-- Claim C4, witness: the behavioral part of the claim theorem evaluated
at the drained end-to-end state, whose in-flight counter is zero. -/
theorem C4_critical_section_witness :
    c2s9.wg = 0 ∧
    (c2s9.queue = [] ∧
     c2s9.callbacks = List.range c2s9.submitted.length ∧
     ∀ i < c2s9.submitted.length,
       i ∈ c2s9.callbacks ∧
       c2s9.delivered i = some (finalResponse (checkPipeOf allOKApp) (txAt c2s9 i))) :=
  ⟨by decide,
   C4_critical_section.2.2 (checkPipeOf allOKApp) 32 c2s9 c2_reach (by decide)⟩

/-! ## Backpressure (claim C9) -/

theorem workerEffect_queue (pa : PipeApp) (s : PipeState) (i : Nat)
    (rest : List Nat) : (workerEffect pa s i rest).queue = rest := by
  cases hsl : s.slot i with
  | none => rw [workerEffect_of_slot_none pa s i rest hsl]
  | some r => rw [workerEffect_of_slot_some pa s i rest r hsl]

theorem workerEffect_submitted (pa : PipeApp) (s : PipeState) (i : Nat)
    (rest : List Nat) : (workerEffect pa s i rest).submitted = s.submitted := by
  cases hsl : s.slot i with
  | none => rw [workerEffect_of_slot_none pa s i rest hsl]
  | some r => rw [workerEffect_of_slot_some pa s i rest r hsl]

/-- The capacity of each pipeline's ordered queue
(`make(chan WorkItem, WorkerPoolQueue*2)`, source lines 75-76). -/
def pipeQueueCap : Nat := WorkerPoolQueue * 2

/-- Claim C9: (a) from a reachable state whose ordered queue is at its
capacity bound, no transition admits a new submission - the submitting
thread is blocked, and (b) no transition ever loses an admitted request:
the submission log is only ever extended; (c) when the queue is full and
the head item's gate has opened, the worker can drain one item, after
which a blocked submission is admitted.  No transition of the model
returns an error for a submission. -/
theorem C9_backpressure (pa : PipeApp) (cap : Nat) (s : PipeState)
    (h : PipeReach pa cap s) :
    (s.queue.length = cap →
      ∀ s', PipeStep pa cap s s' → s'.submitted = s.submitted) ∧
    (∀ s', PipeStep pa cap s s' →
      s'.submitted.take s.submitted.length = s.submitted) ∧
    (s.queue.length = cap → ∀ i rest, s.queue = i :: rest → s.gate i = true →
      PipeStep pa cap s (workerEffect pa s i rest) ∧
      (workerEffect pa s i rest).queue.length < cap ∧
      ∀ tx, PipeStep pa cap (workerEffect pa s i rest)
        (submitEffect (workerEffect pa s i rest) tx)) := by
  refine ⟨?_, ?_, ?_⟩
  · intro hfull s' hs
    cases hs with
    | submit tx hcap =>
      rw [hfull] at hcap
      exact absurd hcap (lt_irrefl cap)
    | preFinish i hilt hgf => rfl
    | workerStep i rest hq hgt => exact workerEffect_submitted pa s i rest
  · intro s' hs
    cases hs with
    | submit tx hcap =>
      show (s.submitted ++ [tx]).take s.submitted.length = s.submitted
      exact List.take_left s.submitted [tx]
    | preFinish i hilt hgf => exact List.take_length s.submitted
    | workerStep i rest hq hgt =>
      rw [workerEffect_submitted pa s i rest]
      exact List.take_length s.submitted
  · intro hfull i rest hq hgt
    have hrest : rest.length + 1 = cap := by
      rw [← hfull, hq, List.length_cons]
    refine ⟨PipeStep.workerStep s i rest hq hgt, ?_, ?_⟩
    · rw [workerEffect_queue pa s i rest]
      omega
    · intro tx
      refine PipeStep.submit _ tx ?_
      rw [workerEffect_queue pa s i rest]
      omega

theorem reach_submits (pa : PipeApp) (cap : Nat) :
    ∀ (txs : List Tx) (s : PipeState), PipeReach pa cap s →
      s.queue.length + txs.length ≤ cap →
      PipeReach pa cap (txs.foldl submitEffect s)
  | [], s, h, _ => h
  | tx :: txs, s, h, hle => by
    have hlt : s.queue.length < cap := by
      simp only [List.length_cons] at hle
      omega
    have h2 : PipeReach pa cap (submitEffect s tx) :=
      Relation.ReflTransGen.tail h (PipeStep.submit s tx hlt)
    have hlen : (submitEffect s tx).queue.length = s.queue.length + 1 := by
      simp [submitEffect]
    refine reach_submits pa cap txs (submitEffect s tx) h2 ?_
    rw [hlen]
    simp only [List.length_cons] at hle
    omega

/-- A validate-class pipeline filled to its exact capacity bound with 32
identical submissions. -/
def c9full : PipeState :=
  (List.replicate pipeQueueCap [0]).foldl submitEffect initPipeState

theorem c9_reach : PipeReach (checkPipeOf allOKApp) pipeQueueCap c9full :=
  reach_submits (checkPipeOf allOKApp) pipeQueueCap
    (List.replicate pipeQueueCap [0]) initPipeState
    Relation.ReflTransGen.refl (by decide)

/-- Claim C9, witness: the full-queue state with the source's capacity 32
is reachable, its queue is at the bound, and the claim theorem's blocked
conclusion holds there. -/
theorem C9_backpressure_witness :
    c9full.queue.length = pipeQueueCap ∧
    (c9full.queue.length = pipeQueueCap →
      ∀ s', PipeStep (checkPipeOf allOKApp) pipeQueueCap c9full s' →
        s'.submitted = c9full.submitted) :=
  ⟨by decide,
   (C9_backpressure (checkPipeOf allOKApp) pipeQueueCap c9full c9_reach).1⟩

/-! ## Fine-grained apply-class submission (claim C10) -/

/-- Life-cycle phase of an apply-class WorkItem.  `DeliverTxAsync` takes
no locks, so its enqueue (source line 199), counter increment (line 202)
and pre-task scheduling (line 203) are separate steps that the worker can
interleave with; the ordering gate opens only when the scheduled pre-task
finishes, and the worker touches an item only after its gate opens. -/
inductive DPhase where
  | enqueuedPh   -- sent on deliverTxQueue; counter not yet incremented
  | countedPh    -- wgCommit.Add(1) performed by the submitter
  | scheduledPh  -- pre-task handed to the pool
  | gateOpenPh   -- pre-task finished; ordering gate released
  | processedPh  -- worker resolved the item; wgCommit.Done() performed
deriving DecidableEq

/-- Whether a phase holds one unit of the in-flight counter. -/
def inflightPh : DPhase → Bool
  | .countedPh => true
  | .scheduledPh => true
  | .gateOpenPh => true
  | _ => false

/-- State of the apply-class pipeline at sub-step granularity: per-item
phases (index = submission order), the FIFO queue of unresolved item
indices, and this pipeline's contribution to the shared counter. -/
structure DeliverPipeState where
  items : List DPhase
  queue : List Nat
  wg : Int
deriving DecidableEq

/-- Small-step transitions of the apply-class submission path and worker,
mirroring the statement order of `DeliverTxAsync` and `deliverTxWorker`:
an item is enqueued before the counter increment, the pre-task is
scheduled only after the increment, the gate opens only when the
scheduled pre-task completes, and the worker resolves only the queue head
and only once its gate is open (whereupon it decrements the counter). -/
inductive DeliverStep (cap : Nat) : DeliverPipeState → DeliverPipeState → Prop
  | enqueue (s : DeliverPipeState) :
      s.queue.length < cap →
      DeliverStep cap s
        { items := s.items ++ [.enqueuedPh]
          queue := s.queue ++ [s.items.length]
          wg := s.wg }
  | wgAddStep (s : DeliverPipeState) (i : Nat) :
      s.items[i]? = some .enqueuedPh →
      DeliverStep cap s
        { items := s.items.set i .countedPh, queue := s.queue, wg := s.wg + 1 }
  | scheduleStep (s : DeliverPipeState) (i : Nat) :
      s.items[i]? = some .countedPh →
      DeliverStep cap s
        { items := s.items.set i .scheduledPh, queue := s.queue, wg := s.wg }
  | preFinishStep (s : DeliverPipeState) (i : Nat) :
      s.items[i]? = some .scheduledPh →
      DeliverStep cap s
        { items := s.items.set i .gateOpenPh, queue := s.queue, wg := s.wg }
  | workerStep (s : DeliverPipeState) (i : Nat) (rest : List Nat) :
      s.queue = i :: rest →
      s.items[i]? = some .gateOpenPh →
      DeliverStep cap s
        { items := s.items.set i .processedPh, queue := rest, wg := s.wg - 1 }

/-- The empty apply-class pipeline. -/
def initDeliverState : DeliverPipeState := { items := [], queue := [], wg := 0 }

/-- Apply-class pipeline states reachable from the empty pipeline. -/
def DeliverReach (cap : Nat) (s : DeliverPipeState) : Prop :=
  Relation.ReflTransGen (DeliverStep cap) initDeliverState s

theorem countP_set_of_get {p : DPhase → Bool} :
    ∀ (l : List DPhase) (i : Nat) (a b : DPhase), l[i]? = some a →
      ((l.set i b).countP p : Int) =
        (l.countP p : Int) + (if p b then 1 else 0) - (if p a then 1 else 0)
  | [], i, a, b, h => by simp at h
  | x :: xs, 0, a, b, h => by
    have hx : x = a := by simpa using h
    subst hx
    have hset : (x :: xs).set 0 b = b :: xs := rfl
    rw [hset, List.countP_cons, List.countP_cons]
    push_cast
    omega
  | x :: xs, i + 1, a, b, h => by
    have h2 : xs[i]? = some a := by simpa using h
    have ih := @countP_set_of_get p xs i a b h2
    have hset : (x :: xs).set (i + 1) b = x :: xs.set i b := rfl
    rw [hset, List.countP_cons, List.countP_cons]
    push_cast at ih ⊢
    omega

theorem countP_pos_of_get {p : DPhase → Bool} :
    ∀ (l : List DPhase) (i : Nat) (a : DPhase), l[i]? = some a → p a = true →
      1 ≤ l.countP p
  | [], i, a, h, _ => by simp at h
  | x :: xs, 0, a, h, hp => by
    have hx : x = a := by simpa using h
    subst hx
    rw [List.countP_cons]
    simp [hp]
  | x :: xs, i + 1, a, h, hp => by
    have h2 : xs[i]? = some a := by simpa using h
    have ih := countP_pos_of_get xs i a h2 hp
    rw [List.countP_cons]
    omega

theorem deliverInv_step {cap : Nat} {s s' : DeliverPipeState}
    (hinv : s.wg = (s.items.countP inflightPh : Int))
    (h : DeliverStep cap s s') :
    s'.wg = (s'.items.countP inflightPh : Int) := by
  cases h with
  | enqueue hcap =>
    show s.wg = ((s.items ++ [DPhase.enqueuedPh]).countP inflightPh : Int)
    rw [List.countP_append inflightPh s.items [DPhase.enqueuedPh], hinv]
    simp [List.countP_cons, inflightPh]
  | wgAddStep i hget =>
    have hc := @countP_set_of_get inflightPh s.items i DPhase.enqueuedPh
      DPhase.countedPh hget
    simp [inflightPh] at hc
    show s.wg + 1 = ((s.items.set i DPhase.countedPh).countP inflightPh : Int)
    rw [hinv]
    omega
  | scheduleStep i hget =>
    have hc := @countP_set_of_get inflightPh s.items i DPhase.countedPh
      DPhase.scheduledPh hget
    simp [inflightPh] at hc
    show s.wg = ((s.items.set i DPhase.scheduledPh).countP inflightPh : Int)
    rw [hinv]
    omega
  | preFinishStep i hget =>
    have hc := @countP_set_of_get inflightPh s.items i DPhase.scheduledPh
      DPhase.gateOpenPh hget
    simp [inflightPh] at hc
    show s.wg = ((s.items.set i DPhase.gateOpenPh).countP inflightPh : Int)
    rw [hinv]
    omega
  | workerStep i rest hq hget =>
    have hc := @countP_set_of_get inflightPh s.items i DPhase.gateOpenPh
      DPhase.processedPh hget
    simp [inflightPh] at hc
    show s.wg - 1 = ((s.items.set i DPhase.processedPh).countP inflightPh : Int)
    rw [hinv]
    omega

theorem deliverInv_reachable {cap : Nat} {s : DeliverPipeState}
    (h : DeliverReach cap s) : s.wg = (s.items.countP inflightPh : Int) := by
  induction h with
  | refl => rfl
  | tail _ hstep ih => exact deliverInv_step ih hstep

/-- Claim C10: in every reachable state of the fine-grained apply-class
model, the in-flight counter equals the number of items whose increment
has happened but whose decrement has not (phases counted, scheduled,
gate-open); hence it is never negative; and every transition either does
not decrease the counter or happens when the counter is at least one (the
decrement requires the item's gate to be open, which requires the
pre-task to have been scheduled, which requires the increment) - so the
counter is never decremented below zero. -/
theorem C10_wg_nonneg (cap : Nat) (s : DeliverPipeState)
    (h : DeliverReach cap s) :
    s.wg = (s.items.countP inflightPh : Int) ∧
    0 ≤ s.wg ∧
    (∀ s', DeliverStep cap s s' → s.wg ≤ s'.wg ∨ 1 ≤ s.wg) := by
  have hinv := deliverInv_reachable h
  refine ⟨hinv, ?_, ?_⟩
  · rw [hinv]
    exact Int.ofNat_nonneg _
  · intro s' hs
    cases hs with
    | enqueue hcap => exact Or.inl (le_refl _)
    | wgAddStep i hget =>
      refine Or.inl ?_
      show s.wg ≤ s.wg + 1
      omega
    | scheduleStep i hget => exact Or.inl (le_refl _)
    | preFinishStep i hget => exact Or.inl (le_refl _)
    | workerStep i rest hq hget =>
      refine Or.inr ?_
      have h1 := @countP_pos_of_get inflightPh s.items i DPhase.gateOpenPh hget rfl
      rw [hinv]
      omega

/-- A fully processed one-item apply-class pipeline state. -/
def c10s : DeliverPipeState :=
  { items := [DPhase.processedPh], queue := [], wg := 0 }

theorem c10_reach : DeliverReach 32 c10s := by
  have h1 : DeliverStep 32 initDeliverState
      { items := [DPhase.enqueuedPh], queue := [0], wg := 0 } :=
    DeliverStep.enqueue _ (by decide)
  have h2 : DeliverStep 32
      { items := [DPhase.enqueuedPh], queue := [0], wg := 0 }
      { items := [DPhase.countedPh], queue := [0], wg := 1 } :=
    DeliverStep.wgAddStep _ 0 (by decide)
  have h3 : DeliverStep 32
      { items := [DPhase.countedPh], queue := [0], wg := 1 }
      { items := [DPhase.scheduledPh], queue := [0], wg := 1 } :=
    DeliverStep.scheduleStep _ 0 (by decide)
  have h4 : DeliverStep 32
      { items := [DPhase.scheduledPh], queue := [0], wg := 1 }
      { items := [DPhase.gateOpenPh], queue := [0], wg := 1 } :=
    DeliverStep.preFinishStep _ 0 (by decide)
  have h5 : DeliverStep 32
      { items := [DPhase.gateOpenPh], queue := [0], wg := 1 } c10s :=
    DeliverStep.workerStep _ 0 [] (by decide) (by decide)
  exact Relation.ReflTransGen.tail (Relation.ReflTransGen.tail
    (Relation.ReflTransGen.tail (Relation.ReflTransGen.tail
    (Relation.ReflTransGen.single h1) h2) h3) h4) h5

/-- Claim C10, witness: the claim theorem evaluated at the reachable
state in which one item has gone through the whole enqueue / increment /
schedule / gate-open / resolve life cycle. -/
theorem C10_wg_nonneg_witness :
    c10s.wg = (c10s.items.countP inflightPh : Int) ∧
    0 ≤ c10s.wg ∧
    (∀ s', DeliverStep 32 c10s s' → c10s.wg ≤ s'.wg ∨ 1 ≤ c10s.wg) :=
  C10_wg_nonneg 32 c10s c10_reach
